import Mathlib

/-!
# IFD field decoding of `parser/tiff/field.go`

A shallow embedding of `ParseField` and of the region queries of `Field`.

* Go's `byte` is `Fin 256`; `uint16` and `uint32` values are natural numbers, the
  32-bit product of the offset test is reduced modulo `2^32`; `int64` values are
  integers, the one `int64` addition is wrapped by `wrapInt64`.
* A Go call either returns or panics: `none` stands for a run-time panic, `some r`
  for a normal return with the four results of `ParseField` in `r`.
-/

namespace Tiff

/-- Go's `byte`. -/
abbrev Byte := Fin 256

/-- Go's slice expression `b[lo:hi]`. -/
def slice (b : List Byte) (lo hi : Nat) : List Byte :=
  (b.take hi).drop lo

/-- Two's-complement wrap of an integer into the range of `int64`. -/
def wrapInt64 (x : Int) : Int :=
  (x + 2 ^ 63) % 2 ^ 64 - 2 ^ 63

/-- The two values of `binary.ByteOrder` in `encoding/binary`. -/
inductive ByteOrder
  | LittleEndian
  | BigEndian
  deriving DecidableEq, Repr

/-- `order.Uint16(b)` of `encoding/binary`; indexing `b[1]` panics on a slice
shorter than two bytes. -/
def ByteOrder.Uint16 : ByteOrder → List Byte → Option Nat
  | .LittleEndian, b0 :: b1 :: _ => some (b0.val ||| (b1.val <<< 8))
  | .BigEndian, b0 :: b1 :: _ => some (b1.val ||| (b0.val <<< 8))
  | _, _ => none

/-- `order.Uint32(b)` of `encoding/binary`; indexing `b[3]` panics on a slice
shorter than four bytes. -/
def ByteOrder.Uint32 : ByteOrder → List Byte → Option Nat
  | .LittleEndian, b0 :: b1 :: b2 :: b3 :: _ =>
      some (b0.val ||| (b1.val <<< 8) ||| (b2.val <<< 16) ||| (b3.val <<< 24))
  | .BigEndian, b0 :: b1 :: b2 :: b3 :: _ =>
      some (b3.val ||| (b2.val <<< 8) ||| (b1.val <<< 16) ||| (b0.val <<< 24))
  | _, _ => none

/-- The package-level table `constants.DataTypeSize`, indexed by a `uint16` with
`uint32` elements. Its declaration is outside `field.go`, so the table is a
parameter of `ParseField`; a Go index expression of this shape reads either a map
or a slice (or array), and both are covered. -/
inductive WidthTable
  | goMap (entries : List (Nat × Nat))
  | goSlice (elems : List Nat)
  deriving DecidableEq, Repr

/-- The index expression `constants.DataTypeSize[k]`: a map yields the zero value
for a missing key, a slice panics when the index is out of range. -/
def WidthTable.index : WidthTable → Nat → Option Nat
  | .goMap entries, k => some ((entries.lookup k).getD 0)
  | .goSlice elems, k => elems.get? k

/-- Whether the table has an entry for the type code `k`. -/
def WidthTable.has : WidthTable → Nat → Bool
  | .goMap entries, k => (entries.lookup k).isSome
  | .goSlice elems, k => decide (k < elems.length)

/-- The struct `Field`. -/
structure Field where
  Start : Int
  End : Int
  Data : List Byte
  ID : Nat
  DType : Nat
  Count : Nat
  Value : Nat
  IsOffset : Bool
  deriving DecidableEq, Repr

/-- Modelled from the spec: the struct `Offset` is declared outside `field.go`;
its fields are the six that `ParseField` assigns (§3 of the spec lists the same). -/
structure Offset where
  DType : Nat
  From : Int
  To : Int
  Count : Nat
  FieldId : Nat
  IsData : Bool
  deriving DecidableEq, Repr

/-- Modelled from the spec: the struct `Data` is declared outside `field.go`;
`ParseField` assigns its one field `Start`. -/
structure Data where
  Start : Int
  deriving DecidableEq, Repr

/-- The two errors `ParseField` builds with `fmt.Errorf`. -/
inductive ParseError
  | couldNotRead (cause : String)
  | strangeSize (n : Int)
  deriving DecidableEq, Repr

/-- What the one call `in.Read(data)` on the fresh 12-byte buffer does: the
contents of `data` after the call (a callee cannot change the length of the
caller's slice), the count `n` and the error, `none` for `nil`. -/
structure Reader where
  data : List Byte
  len_data : data.length = 12
  n : Int
  err : Option String

/-- The four results `(*Field, *Offset, *Data, error)`, `none` for `nil`. -/
structure ParseResult where
  field : Option Field
  offset : Option Offset
  data : Option Data
  err : Option ParseError
  deriving DecidableEq, Repr

/-- The test `result.Count*constants.DataTypeSize[result.DType]`, a product of
two `uint32` values. -/
def totalSize (count width : Nat) : Nat :=
  (count * width) % 2 ^ 32

/-- The condition `result.ID == 273 || result.ID == 324`. -/
def isStripOrTile (id : Nat) : Bool :=
  id == 273 || id == 324

/-- The function `ParseField`, the width table passed as `DataTypeSize`. -/
def ParseField (src : Reader) (start : Int) (order : ByteOrder)
    (DataTypeSize : WidthTable) : Option ParseResult :=
  let data := src.data
  match src.err with
  | some e => some ⟨none, none, none, some (.couldNotRead e)⟩
  | none =>
    if src.n ≠ 12 then
      some ⟨none, none, none, some (.strangeSize src.n)⟩
    else do
      let id ← order.Uint16 (slice data 0 2)
      let dtype ← order.Uint16 (slice data 2 4)
      let count ← order.Uint32 (slice data 4 8)
      let value ← order.Uint32 (slice data 8 12)
      let result : Field :=
        { Start := start, End := wrapInt64 (start + 12), Data := data,
          ID := id, DType := dtype, Count := count, Value := value,
          IsOffset := false }
      let width ← DataTypeSize.index result.DType
      if totalSize result.Count width > 4 then
        let result := { result with IsOffset := true }
        let offset : Offset :=
          { DType := result.DType, From := start, To := (result.Value : Int),
            Count := result.Count, FieldId := result.ID,
            IsData := isStripOrTile result.ID }
        some ⟨some result, some offset, none, none⟩
      else if isStripOrTile result.ID then
        let d : Data := { Start := (result.Value : Int) }
        some ⟨some result, none, some d, none⟩
      else
        some ⟨some result, none, none, none⟩

/-- The method `Field.Contains`. -/
def Field.Contains (f : Field) (offset : Int) : Bool :=
  decide (f.Start ≤ offset) && decide (offset < f.End)

/-- The method `Field.ContainsRegion`. -/
def Field.ContainsRegion (f : Field) (start end_ : Int) : Bool :=
  decide (f.Start ≤ start) && decide (start < f.End) &&
    decide (f.Start < end_) && decide (end_ < f.End)

/-- Modelled from the spec: `constants.DataTypeSize` is declared outside
`field.go`; the entries are the byte widths of the standard TIFF type codes
(1-byte types, 2-byte SHORT, 4-byte LONG, 8-byte RATIONAL), here as a map. -/
def tiffDataTypeSize : WidthTable :=
  .goMap [(1, 1), (2, 1), (3, 2), (4, 4), (5, 8), (6, 1), (7, 1), (8, 2),
    (9, 4), (10, 8), (11, 4), (12, 8)]

/-- Modelled from the spec: the same widths as `tiffDataTypeSize`, as a slice
indexed by the type code. -/
def tiffDataTypeSizeSlice : WidthTable :=
  .goSlice [0, 1, 1, 2, 4, 8, 1, 1, 2, 4, 8, 4, 8]

/-- A reader that delivers the twelve bytes `b` with `n = 12` and no error. -/
def fullRead (b : List Byte) (h : b.length = 12) : Reader :=
  { data := b, len_data := h, n := 12, err := none }

/-- The record `ID=256, DType=3, Count=1, Value=800`, little-endian. -/
def recImageWidth : List Byte :=
  [0x00, 0x01, 0x03, 0x00, 0x01, 0x00, 0x00, 0x00, 0x20, 0x03, 0x00, 0x00]

/-- The record `ID=273, DType=4, Count=1, Value=118`, little-endian. -/
def recStripSingle : List Byte :=
  [0x11, 0x01, 0x04, 0x00, 0x01, 0x00, 0x00, 0x00, 0x76, 0x00, 0x00, 0x00]

/-- The record `ID=273, DType=4, Count=3, Value=200`, big-endian. -/
def recStripMany : List Byte :=
  [0x01, 0x11, 0x00, 0x04, 0x00, 0x00, 0x00, 0x03, 0x00, 0x00, 0x00, 0xC8]

/-- The record `ID=256, DType=3, Count=2^31, Value=0`, little-endian. -/
def recHugeCount : List Byte :=
  [0x00, 0x01, 0x03, 0x00, 0x00, 0x00, 0x00, 0x80, 0x00, 0x00, 0x00, 0x00]

/-- The record `ID=273, DType=4, Count=2^30, Value=8`, little-endian. -/
def recHugeStrip : List Byte :=
  [0x11, 0x01, 0x04, 0x00, 0x00, 0x00, 0x00, 0x40, 0x08, 0x00, 0x00, 0x00]

/-- The record `ID=256, DType=99, Count=3, Value=7`, little-endian. -/
def recUnknownType : List Byte :=
  [0x00, 0x01, 0x63, 0x00, 0x03, 0x00, 0x00, 0x00, 0x07, 0x00, 0x00, 0x00]

/-- The results of `ParseField` on `recStripMany` read big-endian at offset 100. -/
def resStripMany : ParseResult :=
  ⟨some ⟨100, 112, recStripMany, 273, 4, 3, 200, true⟩,
    some ⟨4, 100, 200, 3, 273, true⟩, none, none⟩

/-- The results of `ParseField` on `recStripSingle` read little-endian at offset 100. -/
def resStripSingle : ParseResult :=
  ⟨some ⟨100, 112, recStripSingle, 273, 4, 1, 118, false⟩, none, some ⟨118⟩, none⟩

/-- The results of `ParseField` on `recImageWidth` read little-endian at offset 100. -/
def resImageWidth : ParseResult :=
  ⟨some ⟨100, 112, recImageWidth, 256, 3, 1, 800, false⟩, none, none, none⟩

/-- The results of `ParseField` on `recHugeCount` read little-endian at offset 0. -/
def resHugeCount : ParseResult :=
  ⟨some ⟨0, 12, recHugeCount, 256, 3, 2147483648, 0, false⟩, none, none, none⟩

/-- The results of `ParseField` on `recHugeStrip` read little-endian at offset 0. -/
def resHugeStrip : ParseResult :=
  ⟨some ⟨0, 12, recHugeStrip, 273, 4, 1073741824, 8, false⟩, none, some ⟨8⟩, none⟩

/-- The results of `ParseField` on `recUnknownType` read little-endian at offset
100 when the width table is a map without the key 99. -/
def resUnknownType : ParseResult :=
  ⟨some ⟨100, 112, recUnknownType, 256, 99, 3, 7, false⟩, none, none, none⟩

/-- The Field decoded from `recImageWidth` at offset 10. -/
def fieldAtTen : Field :=
  ⟨10, 22, recImageWidth, 256, 3, 1, 800, false⟩

/-- A reader that delivers `k` bytes, fewer than twelve, and reports no error. -/
def shortRead (b : List Byte) (h : b.length = 12) (k : Int) : Reader :=
  { data := b, len_data := h, n := k, err := none }

/-- A reader whose `Read` reports the error `c`. -/
def failedRead (b : List Byte) (h : b.length = 12) (k : Int) (c : String) : Reader :=
  { data := b, len_data := h, n := k, err := some c }

/-- The unsigned integer a byte string denotes in base 256 under a byte order:
the first byte is the least significant one for little-endian, the most
significant one for big-endian. This is the reading the specification gives of
the four parts of the record, against which `ByteOrder.Uint16` and
`ByteOrder.Uint32` are compared. -/
def unsignedValue : ByteOrder → List Byte → Nat
  | .LittleEndian, bs => bs.foldr (fun b acc => b.val + 256 * acc) 0
  | .BigEndian, bs => bs.foldl (fun acc b => 256 * acc + b.val) 0

/-- The three-way branch at the end of `ParseField`, for a record decoded to
`id`, `dtype`, `count`, `value` and an element width `w`. -/
def branches (data : List Byte) (start : Int) (id dtype count value w : Nat) :
    ParseResult :=
  if totalSize count w > 4 then
    ⟨some ⟨start, wrapInt64 (start + 12), data, id, dtype, count, value, true⟩,
      some ⟨dtype, start, (value : Int), count, id, isStripOrTile id⟩, none, none⟩
  else if isStripOrTile id then
    ⟨some ⟨start, wrapInt64 (start + 12), data, id, dtype, count, value, false⟩,
      none, some ⟨(value : Int)⟩, none⟩
  else
    ⟨some ⟨start, wrapInt64 (start + 12), data, id, dtype, count, value, false⟩,
      none, none, none⟩

/-- The errors the region methods of `Field` build with `fmt.Errorf`: the one of
`Find` carries the offset and the bounds it prints, the one of `Split` is the
fixed text "field can not be split". -/
inductive RegionError
  | outsideField (offset start end_ : Int)
  | canNotBeSplit
  deriving DecidableEq, Repr

/-- The method `Field.Find`: the two results `(parser.Region, error)`, `none` for
`nil`; the only region it returns is the receiver. -/
def Field.Find (f : Field) (offset : Int) : Option Field × Option RegionError :=
  if offset < f.Start ∨ offset ≥ f.End then
    (none, some (.outsideField offset f.Start f.End))
  else
    (some f, none)

/-- The method `Field.Split`: the receiver after the call and the error returned.
The interface `parser.Region` of the argument `newBit` is declared outside
`field.go`, so its type is a parameter. -/
def Field.Split {Region : Type} (f : Field) (_start _end : Int) (_newBit : Region) :
    Field × Option RegionError :=
  (f, some .canNotBeSplit)

/-- Go's conversion `byte(v)` of an unsigned integer: its low eight bits. -/
def toByte (v : Nat) : Byte :=
  ⟨v % 256, Nat.mod_lt v (by decide)⟩

/-- `order.PutUint16(b, v)` of `encoding/binary`: the two bytes it writes. -/
def ByteOrder.PutUint16 : ByteOrder → Nat → List Byte
  | .LittleEndian, v => [toByte v, toByte (v >>> 8)]
  | .BigEndian, v => [toByte (v >>> 8), toByte v]

/-- `order.PutUint32(b, v)` of `encoding/binary`: the four bytes it writes. -/
def ByteOrder.PutUint32 : ByteOrder → Nat → List Byte
  | .LittleEndian, v => [toByte v, toByte (v >>> 8), toByte (v >>> 16), toByte (v >>> 24)]
  | .BigEndian, v => [toByte (v >>> 24), toByte (v >>> 16), toByte (v >>> 8), toByte v]

/-- The re-encoding of a decoded record: ID and DType as 16-bit values, Count and
Value as 32-bit values, in that order, in one byte order. -/
def encodeRecord (order : ByteOrder) (id dtype count value : Nat) : List Byte :=
  order.PutUint16 id ++ order.PutUint16 dtype ++ order.PutUint32 count ++
    order.PutUint32 value

/-- The record `ID=273, DType=4, Count=3, Value=2^32-1`, big-endian. -/
def recTopBit : List Byte :=
  [0x01, 0x11, 0x00, 0x04, 0x00, 0x00, 0x00, 0x03, 0xFF, 0xFF, 0xFF, 0xFF]

/-- The results of `ParseField` on `recTopBit` read big-endian at offset 100. -/
def resTopBit : ParseResult :=
  ⟨some ⟨100, 112, recTopBit, 273, 4, 3, 4294967295, true⟩,
    some ⟨4, 100, 4294967295, 3, 273, true⟩, none, none⟩

/-- The results of `ParseField` on `recStripMany` read big-endian at offset 0. -/
def resStripManyAtZero : ParseResult :=
  ⟨some ⟨0, 12, recStripMany, 273, 4, 3, 200, true⟩,
    some ⟨4, 0, 200, 3, 273, true⟩, none, none⟩

/-! ## Decoding lemmas -/

theorem or_shift8 (a b : Nat) (ha : a < 256) : a ||| (b <<< 8) = a + 256 * b := by
  have h := Nat.mul_add_lt_is_or (i := 8) (b := a) (by simpa using ha) b
  rw [Nat.shiftLeft_eq, Nat.or_comm, Nat.mul_comm b, ← h]
  omega

theorem or_shift16 (a b : Nat) (ha : a < 65536) : a ||| (b <<< 16) = a + 65536 * b := by
  have h := Nat.mul_add_lt_is_or (i := 16) (b := a) (by simpa using ha) b
  rw [Nat.shiftLeft_eq, Nat.or_comm, Nat.mul_comm b, ← h]
  omega

theorem or_shift24 (a b : Nat) (ha : a < 16777216) :
    a ||| (b <<< 24) = a + 16777216 * b := by
  have h := Nat.mul_add_lt_is_or (i := 24) (b := a) (by simpa using ha) b
  rw [Nat.shiftLeft_eq, Nat.or_comm, Nat.mul_comm b, ← h]
  omega

theorem or16 (x y : Byte) : x.val ||| (y.val <<< 8) = x.val + 256 * y.val :=
  or_shift8 _ _ x.isLt

theorem or32 (x y z w : Byte) :
    x.val ||| (y.val <<< 8) ||| (z.val <<< 16) ||| (w.val <<< 24)
      = x.val + 256 * y.val + 65536 * z.val + 16777216 * w.val := by
  have hx := x.isLt
  have hy := y.isLt
  have hz := z.isLt
  rw [or_shift8 _ _ hx, or_shift16 _ _ (by omega), or_shift24 _ _ (by omega)]

theorem unsignedValue_two (x y : Byte) :
    unsignedValue .LittleEndian [x, y] = x.val + 256 * y.val ∧
      unsignedValue .BigEndian [x, y] = 256 * x.val + y.val := by
  simp [unsignedValue]

theorem unsignedValue_four (x y z w : Byte) :
    unsignedValue .LittleEndian [x, y, z, w]
        = x.val + 256 * y.val + 65536 * z.val + 16777216 * w.val ∧
      unsignedValue .BigEndian [x, y, z, w]
        = 16777216 * x.val + 65536 * y.val + 256 * z.val + w.val := by
  constructor <;> simp [unsignedValue] <;> omega

theorem length_twelve (l : List Byte) (h : l.length = 12) :
    ∃ b0 b1 b2 b3 b4 b5 b6 b7 b8 b9 b10 b11 : Byte,
      l = [b0, b1, b2, b3, b4, b5, b6, b7, b8, b9, b10, b11] := by
  match l, h with
  | [b0, b1, b2, b3, b4, b5, b6, b7, b8, b9, b10, b11], _ =>
    exact ⟨b0, b1, b2, b3, b4, b5, b6, b7, b8, b9, b10, b11, rfl⟩

theorem Uint16_eq_unsignedValue (order : ByteOrder) (x y : Byte) :
    order.Uint16 [x, y] = some (unsignedValue order [x, y]) := by
  cases order <;> simp [ByteOrder.Uint16, unsignedValue, or16]; omega

theorem Uint32_eq_unsignedValue (order : ByteOrder) (x y z w : Byte) :
    order.Uint32 [x, y, z, w] = some (unsignedValue order [x, y, z, w]) := by
  cases order <;> simp [ByteOrder.Uint32, unsignedValue, or32] <;> omega

theorem ParseField_of_read (src : Reader) (start : Int) (order : ByteOrder)
    (tbl : WidthTable) (herr : src.err = none) (hn : src.n = 12) :
    ParseField src start order tbl =
      (tbl.index (unsignedValue order (slice src.data 2 4))).map
        (branches src.data start (unsignedValue order (slice src.data 0 2))
          (unsignedValue order (slice src.data 2 4))
          (unsignedValue order (slice src.data 4 8))
          (unsignedValue order (slice src.data 8 12))) := by
  obtain ⟨b0, b1, b2, b3, b4, b5, b6, b7, b8, b9, b10, b11, hd⟩ :=
    length_twelve src.data src.len_data
  have h1 : slice src.data 0 2 = [b0, b1] := by rw [hd]; rfl
  have h2 : slice src.data 2 4 = [b2, b3] := by rw [hd]; rfl
  have h3 : slice src.data 4 8 = [b4, b5, b6, b7] := by rw [hd]; rfl
  have h4 : slice src.data 8 12 = [b8, b9, b10, b11] := by rw [hd]; rfl
  unfold ParseField
  simp only [herr, hn, h1, h2, h3, h4, Uint16_eq_unsignedValue, Uint32_eq_unsignedValue]
  cases hw : tbl.index (unsignedValue order [b2, b3]) with
  | none => simp [hw]
  | some w =>
    simp only [ne_eq, not_true_eq_false, ↓reduceIte, Option.pure_def, Option.bind_eq_bind,
      Option.some_bind, hw, Option.map_some', branches]
    split <;> [rfl; (split <;> rfl)]

theorem ParseField_of_width (src : Reader) (start : Int) (order : ByteOrder)
    (tbl : WidthTable) (w : Nat) (herr : src.err = none) (hn : src.n = 12)
    (hw : tbl.index (unsignedValue order (slice src.data 2 4)) = some w) :
    ParseField src start order tbl =
      some (branches src.data start (unsignedValue order (slice src.data 0 2))
        (unsignedValue order (slice src.data 2 4))
        (unsignedValue order (slice src.data 4 8))
        (unsignedValue order (slice src.data 8 12)) w) := by
  rw [ParseField_of_read src start order tbl herr hn, hw]
  rfl

theorem ParseField_read_error (src : Reader) (start : Int) (order : ByteOrder)
    (tbl : WidthTable) (c : String) (herr : src.err = some c) :
    ParseField src start order tbl = some ⟨none, none, none, some (.couldNotRead c)⟩ := by
  unfold ParseField
  simp only [herr]

theorem ParseField_short (src : Reader) (start : Int) (order : ByteOrder)
    (tbl : WidthTable) (herr : src.err = none) (hn : src.n ≠ 12) :
    ParseField src start order tbl = some ⟨none, none, none, some (.strangeSize src.n)⟩ := by
  unfold ParseField
  simp only [herr, hn, ne_eq, not_false_eq_true, ↓reduceIte]

theorem branches_err (data : List Byte) (start : Int) (id dtype count value w : Nat) :
    (branches data start id dtype count value w).err = none := by
  unfold branches
  split <;> [rfl; (split <;> rfl)]

/-- A call that returns without an error read twelve bytes without a read error,
found a width for the decoded type code, and returns the three-way branch. -/
theorem ParseField_success (src : Reader) (start : Int) (order : ByteOrder)
    (tbl : WidthTable) (r : ParseResult)
    (h : ParseField src start order tbl = some r) (hok : r.err = none) :
    src.err = none ∧ src.n = 12 ∧
      ∃ w, tbl.index (unsignedValue order (slice src.data 2 4)) = some w ∧
        r = branches src.data start (unsignedValue order (slice src.data 0 2))
          (unsignedValue order (slice src.data 2 4))
          (unsignedValue order (slice src.data 4 8))
          (unsignedValue order (slice src.data 8 12)) w := by
  cases herr : src.err with
  | some c =>
    rw [ParseField_read_error src start order tbl c herr] at h
    cases h
    simp at hok
  | none =>
    by_cases hn : src.n = 12
    · refine ⟨rfl, hn, ?_⟩
      rw [ParseField_of_read src start order tbl herr hn] at h
      cases hw : tbl.index (unsignedValue order (slice src.data 2 4)) with
      | none => rw [hw] at h; cases h
      | some w =>
        rw [hw] at h
        exact ⟨w, rfl, (Option.some.inj h).symm⟩
    · rw [ParseField_short src start order tbl herr hn] at h
      cases h
      simp at hok

theorem unsignedValue_two_lt (order : ByteOrder) (l : List Byte) (h : l.length = 2) :
    unsignedValue order l < 2 ^ 16 := by
  match l, h with
  | [x, y], _ =>
    have hx := x.isLt
    have hy := y.isLt
    cases order <;> simp [unsignedValue] <;> omega

theorem unsignedValue_four_lt (order : ByteOrder) (l : List Byte) (h : l.length = 4) :
    unsignedValue order l < 2 ^ 32 := by
  match l, h with
  | [x, y, z, w], _ =>
    have hx := x.isLt
    have hy := y.isLt
    have hz := z.isLt
    have hw := w.isLt
    cases order <;> simp [unsignedValue] <;> omega

theorem slice_length (src : Reader) (lo hi : Nat) (h : hi ≤ 12) :
    (slice src.data lo hi).length = hi - lo := by
  simp [slice, src.len_data, h]

theorem branches_field (data : List Byte) (start : Int) (id dtype count value w : Nat) :
    (branches data start id dtype count value w).field =
      some ⟨start, wrapInt64 (start + 12), data, id, dtype, count, value,
        decide (totalSize count w > 4)⟩ := by
  unfold branches
  split
  · next h => simp [h]
  · next h => split <;> simp [h]

theorem branches_offset (data : List Byte) (start : Int) (id dtype count value w : Nat) :
    (branches data start id dtype count value w).offset =
      if totalSize count w > 4 then
        some ⟨dtype, start, (value : Int), count, id, isStripOrTile id⟩
      else none := by
  unfold branches
  split
  · rfl
  · split <;> rfl

theorem branches_data (data : List Byte) (start : Int) (id dtype count value w : Nat) :
    (branches data start id dtype count value w).data =
      if totalSize count w > 4 then none
      else if isStripOrTile id then some ⟨(value : Int)⟩ else none := by
  unfold branches
  split
  · rfl
  · split <;> rfl

theorem totalSize_of_lt (count w : Nat) (h : count * w < 2 ^ 32) :
    totalSize count w = count * w := by
  unfold totalSize
  exact Nat.mod_eq_of_lt h

theorem totalSize_le (count w : Nat) : totalSize count w ≤ count * w := by
  unfold totalSize
  exact Nat.mod_le _ _

/-- A call that returns with an error returns `nil` for the other three results. -/
theorem ParseField_failure (src : Reader) (start : Int) (order : ByteOrder)
    (tbl : WidthTable) (r : ParseResult)
    (h : ParseField src start order tbl = some r) (hfail : r.err ≠ none) :
    r.field = none ∧ r.offset = none ∧ r.data = none := by
  cases herr : src.err with
  | some c =>
    rw [ParseField_read_error src start order tbl c herr] at h
    cases h
    exact ⟨rfl, rfl, rfl⟩
  | none =>
    by_cases hn : src.n = 12
    · rw [ParseField_of_read src start order tbl herr hn] at h
      cases hw : tbl.index (unsignedValue order (slice src.data 2 4)) with
      | none => rw [hw] at h; cases h
      | some w =>
        rw [hw] at h
        have hr := (Option.some.inj h).symm
        rw [hr] at hfail
        exact absurd (branches_err _ _ _ _ _ _ _) hfail
    · rw [ParseField_short src start order tbl herr hn] at h
      cases h
      exact ⟨rfl, rfl, rfl⟩

/-- The field, the width and the branch of a call that returns without error. -/
theorem ParseField_success_field (src : Reader) (start : Int) (order : ByteOrder)
    (tbl : WidthTable) (r : ParseResult) (f : Field) (w : Nat)
    (h : ParseField src start order tbl = some r) (hok : r.err = none)
    (hf : r.field = some f) (hw : tbl.index f.DType = some w) :
    f = ⟨start, wrapInt64 (start + 12), src.data, f.ID, f.DType, f.Count, f.Value,
        decide (totalSize f.Count w > 4)⟩ ∧
      r = branches src.data start f.ID f.DType f.Count f.Value w := by
  obtain ⟨_, _, w', hw', hr⟩ := ParseField_success src start order tbl r h hok
  have hf' := hf
  rw [hr, branches_field] at hf'
  have hfe := (Option.some.inj hf').symm
  have hd : f.DType = unsignedValue order (slice src.data 2 4) := by rw [hfe]
  rw [hd, hw'] at hw
  have hww : w' = w := Option.some.inj hw
  subst hww
  refine ⟨?_, ?_⟩
  · rw [hfe]
  · rw [hr, hfe]

theorem index_of_has (tbl : WidthTable) (k : Nat) (h : tbl.has k = true) :
    ∃ w, tbl.index k = some w := by
  cases tbl with
  | goMap entries => exact ⟨_, rfl⟩
  | goSlice elems =>
    have hk : k < elems.length := by simpa [WidthTable.has] using h
    exact ⟨elems.get ⟨k, hk⟩, by simp [WidthTable.index, List.get?_eq_get hk]⟩

theorem index_goMap_absent (entries : List (Nat × Nat)) (k : Nat)
    (h : (WidthTable.goMap entries).has k = false) :
    (WidthTable.goMap entries).index k = some 0 := by
  have hk : entries.lookup k = none := by simpa [WidthTable.has] using h
  simp [WidthTable.index, hk]

theorem index_goSlice_absent (elems : List Nat) (k : Nat)
    (h : (WidthTable.goSlice elems).has k = false) :
    (WidthTable.goSlice elems).index k = none := by
  have hk : elems.length ≤ k := by simpa [WidthTable.has] using h
  simpa [WidthTable.index] using hk

theorem wrapInt64_of_range (x : Int) (hlo : -2 ^ 63 ≤ x) (hhi : x < 2 ^ 63) :
    wrapInt64 x = x := by
  unfold wrapInt64
  omega

theorem wrapInt64_span (s : Int) : wrapInt64 (wrapInt64 (s + 12) - s) = 12 := by
  unfold wrapInt64
  omega

/-! ## The decoded record -/

/-- C1: a call that returns without error returns a Field whose ID and DType are
the unsigned 16-bit values of bytes 0..2 and 2..4 and whose Count and Value are
the unsigned 32-bit values of bytes 4..8 and 8..12 of the twelve bytes read, each
in the supplied byte order, for every start and both byte orders. -/
theorem ParseField_decodes (src : Reader) (start : Int) (order : ByteOrder)
    (tbl : WidthTable) (r : ParseResult)
    (h : ParseField src start order tbl = some r) (hok : r.err = none) :
    ∃ f, r.field = some f ∧
      f.ID = unsignedValue order (slice src.data 0 2) ∧ f.ID < 2 ^ 16 ∧
      f.DType = unsignedValue order (slice src.data 2 4) ∧ f.DType < 2 ^ 16 ∧
      f.Count = unsignedValue order (slice src.data 4 8) ∧ f.Count < 2 ^ 32 ∧
      f.Value = unsignedValue order (slice src.data 8 12) ∧ f.Value < 2 ^ 32 := by
  obtain ⟨_, _, w, _, hr⟩ := ParseField_success src start order tbl r h hok
  refine ⟨_, by rw [hr, branches_field], rfl, ?_, rfl, ?_, rfl, ?_, rfl, ?_⟩
  · exact unsignedValue_two_lt order _ (slice_length src 0 2 (by omega))
  · exact unsignedValue_two_lt order _ (slice_length src 2 4 (by omega))
  · exact unsignedValue_four_lt order _ (slice_length src 4 8 (by omega))
  · exact unsignedValue_four_lt order _ (slice_length src 8 12 (by omega))

/-- Witness of C1 on the big-endian record `ID=273, DType=4, Count=3, Value=200`. -/
theorem ParseField_decodes_witness :
    ParseField (fullRead recStripMany rfl) 100 .BigEndian tiffDataTypeSize
        = some resStripMany ∧
      ∃ f, resStripMany.field = some f ∧
        f.ID = 273 ∧ f.ID < 2 ^ 16 ∧ f.DType = 4 ∧ f.DType < 2 ^ 16 ∧
        f.Count = 3 ∧ f.Count < 2 ^ 32 ∧ f.Value = 200 ∧ f.Value < 2 ^ 32 :=
  ⟨rfl, ParseField_decodes (fullRead recStripMany rfl) 100 .BigEndian tiffDataTypeSize
    resStripMany rfl rfl⟩

/-! ## The offset test and the three branches -/

/-- C2, the code at the failing input: the record `ID=256, DType=3, Count=2^31`
has the 2-byte type SHORT, so its values take `2^31 * 2 = 2^32 > 4` bytes, yet
`ParseField` returns the Field with `IsOffset = false` and no Offset, with the
width table as a map and as a slice. -/
theorem ParseField_huge_count_inline :
    tiffDataTypeSize.index 3 = some 2 ∧ tiffDataTypeSizeSlice.index 3 = some 2 ∧
      ParseField (fullRead recHugeCount rfl) 0 .LittleEndian tiffDataTypeSize
        = some resHugeCount ∧
      ParseField (fullRead recHugeCount rfl) 0 .LittleEndian tiffDataTypeSizeSlice
        = some resHugeCount ∧
      ∃ f, resHugeCount.field = some f ∧ f.DType = 3 ∧ f.Count * 2 > 4 ∧
        f.IsOffset = false ∧ resHugeCount.offset = none :=
  ⟨rfl, rfl, rfl, rfl, _, rfl, rfl, by decide, rfl, rfl⟩

/-- C3, the code at the failing input: the record `ID=273, DType=4, Count=2^30,
Value=8` has the 4-byte type LONG, so its total size is `2^30 * 4 = 2^32 > 4`, yet
the call returns no Offset (it returns a Data with `Start = 8`), by the same
wrapped 32-bit product as at the failing input of C2. -/
theorem ParseField_huge_strip_no_offset :
    tiffDataTypeSize.index 4 = some 4 ∧
      ParseField (fullRead recHugeStrip rfl) 0 .LittleEndian tiffDataTypeSize
        = some resHugeStrip ∧
      resHugeStrip.err = none ∧
      (∃ f, resHugeStrip.field = some f ∧ f.DType = 4 ∧ f.Count * 4 > 4) ∧
      resHugeStrip.offset = none ∧ resHugeStrip.data = some ⟨8⟩ :=
  ⟨rfl, rfl, rfl, ⟨_, rfl, rfl, by decide⟩, rfl, rfl⟩

/-- The offset branch away from the overflow: for a call that returns without
error, with Field `f` and element width `w` of its type code, an Offset is
returned only if `Count * w > 4`, and whenever `Count * w` fits 32 bits an Offset
is returned exactly when `Count * w > 4`. A returned Offset has `To = Value`, `From = start`,
the Count, DType and ID of the Field and `IsData = (ID == 273 || ID == 324)`; no
Data is returned with it and `IsOffset` is true. -/
theorem ParseField_offset_branch (src : Reader) (start : Int) (order : ByteOrder)
    (tbl : WidthTable) (r : ParseResult) (f : Field) (w : Nat)
    (h : ParseField src start order tbl = some r) (hok : r.err = none)
    (hf : r.field = some f) (hw : tbl.index f.DType = some w) :
    (r.offset.isSome = true → f.Count * w > 4) ∧
      (f.Count * w < 2 ^ 32 → (r.offset.isSome = true ↔ f.Count * w > 4)) ∧
      ∀ o, r.offset = some o →
        o.To = (f.Value : Int) ∧ o.From = start ∧ o.Count = f.Count ∧
        o.DType = f.DType ∧ o.FieldId = f.ID ∧
        o.IsData = (f.ID == 273 || f.ID == 324) ∧
        r.data = none ∧ f.IsOffset = true := by
  obtain ⟨hfe, hr⟩ := ParseField_success_field src start order tbl r f w h hok hf hw
  have hoff := branches_offset src.data start f.ID f.DType f.Count f.Value w
  have hdat := branches_data src.data start f.ID f.DType f.Count f.Value w
  rw [← hr] at hoff hdat
  have hio : f.IsOffset = decide (totalSize f.Count w > 4) := by rw [hfe]
  have hiff : r.offset.isSome = true ↔ totalSize f.Count w > 4 := by
    rw [hoff]
    by_cases hc : totalSize f.Count w > 4
    · rw [if_pos hc]
      exact ⟨fun _ => hc, fun _ => rfl⟩
    · rw [if_neg hc]
      exact ⟨fun hx => absurd hx (by simp), fun hx => absurd hx hc⟩
  refine ⟨?_, ?_, ?_⟩
  · intro hs
    have h1 := hiff.mp hs
    have h2 := totalSize_le f.Count w
    omega
  · intro hlt
    rw [hiff, totalSize_of_lt _ _ hlt]
  · intro o ho
    have hgt : totalSize f.Count w > 4 := hiff.mp (by rw [ho]; rfl)
    rw [hoff, if_pos hgt] at ho
    have ho' := (Option.some.inj ho).symm
    rw [hdat, if_pos hgt, hio, ho']
    exact ⟨rfl, rfl, rfl, rfl, rfl, rfl, rfl, decide_eq_true hgt⟩

/-- The offset branch on the example `ID=273, DType=4, Count=3, Value=200` gives `IsOffset = true`, the Offset `To:200, Count:3,
FieldId:273, IsData:true` and no Data. -/
theorem ParseField_offset_branch_witness :
    ParseField (fullRead recStripMany rfl) 100 .BigEndian tiffDataTypeSize
        = some resStripMany ∧
      resStripMany.field = some ⟨100, 112, recStripMany, 273, 4, 3, 200, true⟩ ∧
      tiffDataTypeSize.index 4 = some 4 ∧
      ((resStripMany.offset.isSome = true → 3 * 4 > 4) ∧
        (3 * 4 < 2 ^ 32 → (resStripMany.offset.isSome = true ↔ 3 * 4 > 4)) ∧
        ∀ o, resStripMany.offset = some o →
          o.To = 200 ∧ o.From = 100 ∧ o.Count = 3 ∧ o.DType = 4 ∧ o.FieldId = 273 ∧
          o.IsData = true ∧ resStripMany.data = none ∧ true = true) :=
  ⟨rfl, rfl, rfl,
    ParseField_offset_branch (fullRead recStripMany rfl) 100 .BigEndian tiffDataTypeSize
      resStripMany ⟨100, 112, recStripMany, 273, 4, 3, 200, true⟩ 4 rfl rfl rfl rfl⟩

/-- C4: for a call that returns without error whose total size `Count * w` is at
most 4, `IsOffset` is false and no Offset is returned; a Data with
`Start = Value` is returned when the ID is 273 or 324, and no Data otherwise. -/
theorem ParseField_inline_branch (src : Reader) (start : Int) (order : ByteOrder)
    (tbl : WidthTable) (r : ParseResult) (f : Field) (w : Nat)
    (h : ParseField src start order tbl = some r) (hok : r.err = none)
    (hf : r.field = some f) (hw : tbl.index f.DType = some w)
    (hsz : f.Count * w ≤ 4) :
    f.IsOffset = false ∧ r.offset = none ∧
      ((f.ID = 273 ∨ f.ID = 324) → r.data = some ⟨(f.Value : Int)⟩) ∧
      (¬(f.ID = 273 ∨ f.ID = 324) → r.data = none) := by
  obtain ⟨hfe, hr⟩ := ParseField_success_field src start order tbl r f w h hok hf hw
  have hoff := branches_offset src.data start f.ID f.DType f.Count f.Value w
  have hdat := branches_data src.data start f.ID f.DType f.Count f.Value w
  rw [← hr] at hoff hdat
  have hio : f.IsOffset = decide (totalSize f.Count w > 4) := by rw [hfe]
  have hle : ¬ totalSize f.Count w > 4 := by
    have := totalSize_le f.Count w
    omega
  rw [if_neg hle] at hoff hdat
  refine ⟨by rw [hio]; exact decide_eq_false hle, hoff, ?_, ?_⟩
  · intro hid
    rw [hdat, if_pos (by simpa [isStripOrTile] using hid)]
  · intro hid
    rw [hdat, if_neg (by simpa [isStripOrTile] using hid)]

/-- Witness of C4, the example of the claim: `ID=273, DType=4, Count=1, Value=118`
gives `IsOffset = false`, the Data `Start:118` and no Offset. -/
theorem ParseField_inline_branch_witness :
    ParseField (fullRead recStripSingle rfl) 100 .LittleEndian tiffDataTypeSize
        = some resStripSingle ∧
      resStripSingle.field = some ⟨100, 112, recStripSingle, 273, 4, 1, 118, false⟩ ∧
      tiffDataTypeSize.index 4 = some 4 ∧ 1 * 4 ≤ 4 ∧
      (false = false ∧ resStripSingle.offset = none ∧
        (((273 : Nat) = 273 ∨ (273 : Nat) = 324) → resStripSingle.data = some ⟨118⟩) ∧
        (¬((273 : Nat) = 273 ∨ (273 : Nat) = 324) → resStripSingle.data = none)) :=
  ⟨rfl, rfl, rfl, by decide,
    ParseField_inline_branch (fullRead recStripSingle rfl) 100 .LittleEndian
      tiffDataTypeSize resStripSingle ⟨100, 112, recStripSingle, 273, 4, 1, 118, false⟩ 4
      rfl rfl rfl rfl (by decide)⟩

/-- C5: whatever a call returns, it never holds both an Offset and a Data:
exactly one of Offset only, Data only, and neither holds. -/
theorem ParseField_offset_data_exclusive (src : Reader) (start : Int)
    (order : ByteOrder) (tbl : WidthTable) (r : ParseResult)
    (h : ParseField src start order tbl = some r) :
    ¬(r.offset.isSome = true ∧ r.data.isSome = true) ∧
      ((r.offset.isSome = true ∧ r.data = none) ∨
        (r.offset = none ∧ r.data.isSome = true) ∨
        (r.offset = none ∧ r.data = none)) := by
  by_cases hok : r.err = none
  · obtain ⟨_, _, w, _, hr⟩ := ParseField_success src start order tbl r h hok
    have hoff := branches_offset src.data start (unsignedValue order (slice src.data 0 2))
      (unsignedValue order (slice src.data 2 4)) (unsignedValue order (slice src.data 4 8))
      (unsignedValue order (slice src.data 8 12)) w
    have hdat := branches_data src.data start (unsignedValue order (slice src.data 0 2))
      (unsignedValue order (slice src.data 2 4)) (unsignedValue order (slice src.data 4 8))
      (unsignedValue order (slice src.data 8 12)) w
    rw [← hr] at hoff hdat
    rw [hoff, hdat]
    split
    · simp
    · split <;> simp
  · obtain ⟨_, ho, hd⟩ := ParseField_failure src start order tbl r h hok
    rw [ho, hd]
    simp

/-- Witness of C5 on the record that yields a Data and no Offset. -/
theorem ParseField_offset_data_exclusive_witness :
    ParseField (fullRead recStripSingle rfl) 100 .LittleEndian tiffDataTypeSize
        = some resStripSingle ∧
      (¬(resStripSingle.offset.isSome = true ∧ resStripSingle.data.isSome = true) ∧
        ((resStripSingle.offset.isSome = true ∧ resStripSingle.data = none) ∨
          (resStripSingle.offset = none ∧ resStripSingle.data.isSome = true) ∨
          (resStripSingle.offset = none ∧ resStripSingle.data = none))) :=
  ⟨rfl, ParseField_offset_data_exclusive (fullRead recStripSingle rfl) 100 .LittleEndian
    tiffDataTypeSize resStripSingle rfl⟩

/-! ## The span of the field -/

/-- C6: the Field of a call that returns without error has `Start = start` and
`End = Start + 12` in the `int64` arithmetic of the code, so the `int64`
difference `End - Start` is 12, for every start; whenever `start + 12` is in the
range of `int64`, `End = Start + 12` and `End - Start = 12` as integers. -/
theorem ParseField_span (src : Reader) (start : Int) (order : ByteOrder)
    (tbl : WidthTable) (r : ParseResult)
    (h : ParseField src start order tbl = some r) (hok : r.err = none) :
    ∃ f, r.field = some f ∧ f.Start = start ∧
      f.End = wrapInt64 (f.Start + 12) ∧ wrapInt64 (f.End - f.Start) = 12 ∧
      (-2 ^ 63 ≤ start ∧ start + 12 < 2 ^ 63 →
        f.End = f.Start + 12 ∧ f.End - f.Start = 12) := by
  obtain ⟨_, _, w, _, hr⟩ := ParseField_success src start order tbl r h hok
  refine ⟨_, by rw [hr, branches_field], rfl, rfl, wrapInt64_span start, ?_⟩
  intro hrange
  have hw : wrapInt64 (start + 12) = start + 12 :=
    wrapInt64_of_range _ (by omega) hrange.2
  show wrapInt64 (start + 12) = start + 12 ∧ wrapInt64 (start + 12) - start = 12
  rw [hw]
  exact ⟨rfl, by omega⟩

/-- Witness of C6 on the record `ID=256, DType=3, Count=1, Value=800` at offset 100. -/
theorem ParseField_span_witness :
    ParseField (fullRead recImageWidth rfl) 100 .LittleEndian tiffDataTypeSize
        = some resImageWidth ∧
      ∃ f, resImageWidth.field = some f ∧ f.Start = 100 ∧
        f.End = wrapInt64 (f.Start + 12) ∧ wrapInt64 (f.End - f.Start) = 12 ∧
        (-2 ^ 63 ≤ (100 : Int) ∧ (100 : Int) + 12 < 2 ^ 63 →
          f.End = f.Start + 12 ∧ f.End - f.Start = 12) :=
  ⟨rfl, ParseField_span (fullRead recImageWidth rfl) 100 .LittleEndian tiffDataTypeSize
    resImageWidth rfl rfl⟩

/-! ## Failures of the read -/

/-- C7: a read that delivers a count other than 12 makes `ParseField` fail, with
the size error when the read itself reported none; a read that reports an error
makes it fail with the read error; a failure returns no Field, no Offset and no
Data; a read of 12 bytes without error whose type code is in the width table
makes it return without error, with the decoded Field. -/
theorem ParseField_read_contract (src : Reader) (start : Int) (order : ByteOrder)
    (tbl : WidthTable) :
    (src.n ≠ 12 → ∃ e, ParseField src start order tbl = some ⟨none, none, none, some e⟩) ∧
      (src.n ≠ 12 → src.err = none →
        ParseField src start order tbl
          = some ⟨none, none, none, some (.strangeSize src.n)⟩) ∧
      (∀ c, src.err = some c →
        ParseField src start order tbl
          = some ⟨none, none, none, some (.couldNotRead c)⟩) ∧
      (∀ r, ParseField src start order tbl = some r → r.err ≠ none →
        r.field = none ∧ r.offset = none ∧ r.data = none) ∧
      (src.n = 12 → src.err = none →
        tbl.has (unsignedValue order (slice src.data 2 4)) = true →
        ∃ r f w, ParseField src start order tbl = some r ∧ r.err = none ∧
          r.field = some f ∧
          tbl.index (unsignedValue order (slice src.data 2 4)) = some w ∧
          f = ⟨start, wrapInt64 (start + 12), src.data,
            unsignedValue order (slice src.data 0 2),
            unsignedValue order (slice src.data 2 4),
            unsignedValue order (slice src.data 4 8),
            unsignedValue order (slice src.data 8 12),
            decide (totalSize (unsignedValue order (slice src.data 4 8)) w > 4)⟩) := by
  refine ⟨?_, ?_, ?_, ?_, ?_⟩
  · intro hn
    cases herr : src.err with
    | some c => exact ⟨_, ParseField_read_error src start order tbl c herr⟩
    | none => exact ⟨_, ParseField_short src start order tbl herr hn⟩
  · intro hn herr
    exact ParseField_short src start order tbl herr hn
  · intro c herr
    exact ParseField_read_error src start order tbl c herr
  · intro r h hfail
    exact ParseField_failure src start order tbl r h hfail
  · intro hn herr hhas
    obtain ⟨w, hw⟩ := index_of_has tbl _ hhas
    exact ⟨_, _, w, ParseField_of_width src start order tbl w herr hn hw,
      branches_err _ _ _ _ _ _ _, branches_field _ _ _ _ _ _ _, hw, rfl⟩

/-- Witness of C7: seven bytes delivered, a reported error, and a full read. -/
theorem ParseField_read_contract_witness :
    ParseField (shortRead recImageWidth rfl 7) 100 .LittleEndian tiffDataTypeSize
        = some ⟨none, none, none, some (.strangeSize 7)⟩ ∧
      ParseField (failedRead recImageWidth rfl 0 "EOF") 100 .LittleEndian tiffDataTypeSize
        = some ⟨none, none, none, some (.couldNotRead "EOF")⟩ ∧
      ∃ r f w, ParseField (fullRead recImageWidth rfl) 100 .LittleEndian tiffDataTypeSize
          = some r ∧ r.err = none ∧ r.field = some f ∧
        tiffDataTypeSize.index 3 = some w ∧
        f = ⟨100, 112, recImageWidth, 256, 3, 1, 800, decide (totalSize 1 w > 4)⟩ :=
  ⟨(ParseField_read_contract (shortRead recImageWidth rfl 7) 100 .LittleEndian
      tiffDataTypeSize).2.1 (by decide) rfl,
    (ParseField_read_contract (failedRead recImageWidth rfl 0 "EOF") 100 .LittleEndian
      tiffDataTypeSize).2.2.1 "EOF" rfl,
    (ParseField_read_contract (fullRead recImageWidth rfl) 100 .LittleEndian
      tiffDataTypeSize).2.2.2.2 rfl rfl rfl⟩

/-! ## A type code outside the width table -/

/-- C8, counterexample: the record `ID=256, DType=99, Count=3, Value=7` has a type
code absent from the width table. With the table as a map `ParseField` returns
the Field without any error, classified inline with the zero width of the missing
key; with the table as a slice the index expression panics and no error value is
returned either. -/
theorem unknown_type_returns_no_error :
    tiffDataTypeSize.has 99 = false ∧ tiffDataTypeSizeSlice.has 99 = false ∧
      ParseField (fullRead recUnknownType rfl) 100 .LittleEndian tiffDataTypeSize
        = some resUnknownType ∧
      resUnknownType.err = none ∧
      (∃ f, resUnknownType.field = some f ∧ f.DType = 99 ∧ f.IsOffset = false) ∧
      ParseField (fullRead recUnknownType rfl) 100 .LittleEndian tiffDataTypeSizeSlice
        = none :=
  ⟨rfl, rfl, rfl, rfl, ⟨_, rfl, rfl, rfl⟩, rfl⟩

/-- C8 as amended: for twelve bytes read without error whose type code is absent
from the width table, `ParseField` never returns an error. With the table a map
the missing key reads as width 0 and the Field is returned as inline
(`IsOffset = false`, no Offset); with the table a slice the index expression
panics and the call returns nothing. -/
theorem ParseField_unknown_type (src : Reader) (start : Int) (order : ByteOrder)
    (tbl : WidthTable) (herr : src.err = none) (hn : src.n = 12)
    (habs : tbl.has (unsignedValue order (slice src.data 2 4)) = false) :
    (∀ r, ParseField src start order tbl = some r → r.err = none) ∧
      (∀ entries, tbl = .goMap entries →
        ∃ r, ParseField src start order tbl = some r ∧ r.err = none ∧
          r.offset = none ∧
          r.field = some ⟨start, wrapInt64 (start + 12), src.data,
            unsignedValue order (slice src.data 0 2),
            unsignedValue order (slice src.data 2 4),
            unsignedValue order (slice src.data 4 8),
            unsignedValue order (slice src.data 8 12), false⟩) ∧
      (∀ elems, tbl = .goSlice elems → ParseField src start order tbl = none) := by
  have hmap : ∀ r, ParseField src start order tbl = some r → r.err = none := by
    intro r h
    rw [ParseField_of_read src start order tbl herr hn] at h
    cases hw : tbl.index (unsignedValue order (slice src.data 2 4)) with
    | none => rw [hw] at h; cases h
    | some w =>
      rw [hw] at h
      rw [← Option.some.inj h]
      exact branches_err _ _ _ _ _ _ _
  refine ⟨hmap, ?_, ?_⟩
  · intro entries htbl
    subst htbl
    have hw := index_goMap_absent entries _ habs
    refine ⟨_, ParseField_of_width src start order _ 0 herr hn hw,
      branches_err _ _ _ _ _ _ _, ?_, ?_⟩
    · rw [branches_offset]
      simp [totalSize]
    · rw [branches_field]
      simp [totalSize]
  · intro elems htbl
    subst htbl
    rw [ParseField_of_read src start order _ herr hn, index_goSlice_absent elems _ habs]
    rfl

/-- Witness of the amended C8 on the record with `DType=99`, the table as a map. -/
theorem ParseField_unknown_type_witness :
    tiffDataTypeSize.has 99 = false ∧
      ((∀ r, ParseField (fullRead recUnknownType rfl) 100 .LittleEndian tiffDataTypeSize
          = some r → r.err = none) ∧
        (∀ entries, tiffDataTypeSize = .goMap entries →
          ∃ r, ParseField (fullRead recUnknownType rfl) 100 .LittleEndian tiffDataTypeSize
              = some r ∧ r.err = none ∧ r.offset = none ∧
            r.field = some ⟨100, 112, recUnknownType, 256, 99, 3, 7, false⟩) ∧
        (∀ elems, tiffDataTypeSize = .goSlice elems →
          ParseField (fullRead recUnknownType rfl) 100 .LittleEndian tiffDataTypeSize
            = none)) :=
  ⟨rfl, ParseField_unknown_type (fullRead recUnknownType rfl) 100 .LittleEndian
    tiffDataTypeSize rfl rfl rfl⟩

/-! ## Region queries -/

/-- C9: `ContainsRegion(s, e)` is true exactly when `Start <= s < End` and
`Start < e < End`; on every Field with `Start = 10` and `End = 22`,
`ContainsRegion(10, 22)` is false and `ContainsRegion(11, 21)` is true. -/
theorem ContainsRegion_iff (f : Field) (s e : Int) (d : List Byte)
    (id dtype count value : Nat) (isOffset : Bool) :
    (f.ContainsRegion s e = true ↔
        (f.Start ≤ s ∧ s < f.End) ∧ (f.Start < e ∧ e < f.End)) ∧
      (Field.mk 10 22 d id dtype count value isOffset).ContainsRegion 10 22 = false ∧
      (Field.mk 10 22 d id dtype count value isOffset).ContainsRegion 11 21 = true := by
  refine ⟨?_, ?_, ?_⟩
  · simp [Field.ContainsRegion, and_assoc]
  · simp [Field.ContainsRegion]
  · simp [Field.ContainsRegion]

/-- C10, counterexample: on the Field with `Start = 10` and `End = 22` the
sub-range `(10, 15)` starts at the start of the field, and `ContainsRegion`
accepts it. -/
theorem ContainsRegion_accepts_flush_start :
    fieldAtTen.Start = 10 ∧ fieldAtTen.End = 22 ∧
      fieldAtTen.ContainsRegion 10 15 = true :=
  ⟨rfl, rfl, by decide⟩

/-- C10 as amended: a sub-range whose end bound touches either boundary of the
field (`e == End` or `e == Start`) is rejected, and so is one whose start bound is
the end of the field; a start bound equal to `Start` is accepted, exactly when
`Start < e < End`. -/
theorem ContainsRegion_boundaries (f : Field) (s e : Int) :
    ((e = f.End ∨ e = f.Start ∨ s = f.End) → f.ContainsRegion s e = false) ∧
      (f.ContainsRegion f.Start e = true ↔ f.Start < e ∧ e < f.End) := by
  refine ⟨?_, ?_⟩
  · intro h
    rw [Bool.eq_false_iff]
    intro hc
    simp only [Field.ContainsRegion, Bool.and_eq_true, decide_eq_true_eq] at hc
    omega
  · simp only [Field.ContainsRegion, Bool.and_eq_true, decide_eq_true_eq]
    constructor
    · intro h; omega
    · intro h; omega

/-- Witness of the amended C10 on the Field with `Start = 10` and `End = 22`. -/
theorem ContainsRegion_boundaries_witness :
    fieldAtTen.ContainsRegion 10 22 = false ∧
      (fieldAtTen.ContainsRegion 10 15 = true ↔ (10 : Int) < 15 ∧ (15 : Int) < 22) :=
  ⟨(ContainsRegion_boundaries fieldAtTen 10 22).1 (Or.inl rfl),
    (ContainsRegion_boundaries fieldAtTen 10 15).2⟩

/-- C11: `Contains(o)` is true exactly when `Start <= o < End`; on every Field
with `Start = 10` and `End = 22`, `Contains(10)` is true and `Contains(22)` is
false. -/
theorem Contains_iff (f : Field) (o : Int) (d : List Byte)
    (id dtype count value : Nat) (isOffset : Bool) :
    (f.Contains o = true ↔ f.Start ≤ o ∧ o < f.End) ∧
      (Field.mk 10 22 d id dtype count value isOffset).Contains 10 = true ∧
      (Field.mk 10 22 d id dtype count value isOffset).Contains 22 = false := by
  refine ⟨?_, ?_, ?_⟩
  · simp [Field.Contains]
  · simp [Field.Contains]
  · simp [Field.Contains]

/-- C12: `Find(o)` returns an error exactly when `o` is outside `[Start, End)`,
and then returns no region; when `o` is inside it returns no error and the
receiver itself, unchanged. -/
theorem Find_iff (f : Field) (o : Int) :
    ((f.Find o).2.isSome = true ↔ ¬(f.Start ≤ o ∧ o < f.End)) ∧
      (¬(f.Start ≤ o ∧ o < f.End) →
        f.Find o = (none, some (.outsideField o f.Start f.End))) ∧
      (f.Start ≤ o ∧ o < f.End → f.Find o = (some f, none)) := by
  unfold Field.Find
  by_cases hout : o < f.Start ∨ o ≥ f.End
  · rw [if_pos hout]
    refine ⟨⟨fun _ => by omega, fun _ => rfl⟩, fun _ => rfl, fun hin => ?_⟩
    omega
  · rw [if_neg hout]
    refine ⟨⟨fun hx => absurd hx (by simp), fun hx => ?_⟩, fun hx => ?_, fun _ => rfl⟩
    · omega
    · omega

/-- Witness of C12 on the Field with `Start = 10` and `End = 22`: offset 22 is
outside, offset 21 is inside. -/
theorem Find_iff_witness :
    fieldAtTen.Find 22 = (none, some (.outsideField 22 10 22)) ∧
      fieldAtTen.Find 21 = (some fieldAtTen, none) :=
  ⟨(Find_iff fieldAtTen 22).2.1 (by decide), (Find_iff fieldAtTen 21).2.2 (by decide)⟩

/-- C13: for every Field and every start, end and new region, of any region type,
`Split` returns the error "field can not be split" and leaves the receiver
unchanged. -/
theorem Split_fails (Region : Type) (f : Field) (s e : Int) (newBit : Region) :
    (f.Split s e newBit).2 = some .canNotBeSplit ∧ (f.Split s e newBit).1 = f :=
  ⟨rfl, rfl⟩

/-! ## The worked record, the raw payload and the 32-bit offset test -/

/-- C14: the little-endian record `00 01 03 00 01 00 00 00 20 03 00 00`, read with
the little-endian byte order and a width table that gives type 3 the width 2,
decodes to the Field `ID:256, DType:3, Count:1, Value:800, IsOffset:false` with
no Offset, no Data and no error, at every start. -/
theorem ParseField_image_width (start : Int) (tbl : WidthTable)
    (hw : tbl.index 3 = some 2) :
    ParseField (fullRead recImageWidth rfl) start .LittleEndian tbl =
      some ⟨some ⟨start, wrapInt64 (start + 12),
          [0x00, 0x01, 0x03, 0x00, 0x01, 0x00, 0x00, 0x00, 0x20, 0x03, 0x00, 0x00],
          256, 3, 1, 800, false⟩, none, none, none⟩ := by
  rw [ParseField_of_width (fullRead recImageWidth rfl) start .LittleEndian tbl 2 rfl rfl hw]
  rfl

/-- Witness of C14 with the standard TIFF widths at offset 100. -/
theorem ParseField_image_width_witness :
    tiffDataTypeSize.index 3 = some 2 ∧
      ParseField (fullRead recImageWidth rfl) 100 .LittleEndian tiffDataTypeSize =
        some ⟨some ⟨100, 112, recImageWidth, 256, 3, 1, 800, false⟩, none, none, none⟩ :=
  ⟨rfl, ParseField_image_width 100 tiffDataTypeSize rfl⟩

/-- C15: the Field of a call that returns without error keeps the raw payload:
its `Data` has length 12 and is the buffer the read filled, byte for byte. -/
theorem ParseField_keeps_payload (src : Reader) (start : Int) (order : ByteOrder)
    (tbl : WidthTable) (r : ParseResult)
    (h : ParseField src start order tbl = some r) (hok : r.err = none) :
    ∃ f, r.field = some f ∧ f.Data = src.data ∧ f.Data.length = 12 ∧
      ∀ i : Fin 12, f.Data.get? i.val = src.data.get? i.val := by
  obtain ⟨_, _, w, _, hr⟩ := ParseField_success src start order tbl r h hok
  exact ⟨_, by rw [hr, branches_field], rfl, src.len_data, fun _ => rfl⟩

/-- Witness of C15 on the record `ID=273, DType=4, Count=1, Value=118`. -/
theorem ParseField_keeps_payload_witness :
    ParseField (fullRead recStripSingle rfl) 100 .LittleEndian tiffDataTypeSize
        = some resStripSingle ∧
      ∃ f, resStripSingle.field = some f ∧ f.Data = recStripSingle ∧
        f.Data.length = 12 ∧
        ∀ i : Fin 12, f.Data.get? i.val = recStripSingle.get? i.val :=
  ⟨rfl, ParseField_keeps_payload (fullRead recStripSingle rfl) 100 .LittleEndian
    tiffDataTypeSize resStripSingle rfl rfl⟩

/-- C16: for a call that returns without error, with Field `f` and element width
`w` of its type code, `IsOffset` is true exactly when `(Count * w) mod 2^32 > 4`,
and an Offset is returned exactly when `IsOffset` is true. So with a 2-byte type 3
the record with `Count = 2^31`, and with a 4-byte type 4 the record with
`Count = 2^30`, have a total size of `2^32 > 4` bytes and are returned as inline:
`IsOffset = false` and no Offset. -/
theorem ParseField_offset_test_wraps (src : Reader) (start : Int) (order : ByteOrder)
    (tbl : WidthTable) (r : ParseResult) (f : Field) (w : Nat)
    (h : ParseField src start order tbl = some r) (hok : r.err = none)
    (hf : r.field = some f) (hw : tbl.index f.DType = some w) :
    (f.IsOffset = true ↔ (f.Count * w) % 2 ^ 32 > 4) ∧
      (r.offset.isSome = true ↔ f.IsOffset = true) ∧
      (∀ (t : WidthTable) (s : Int), t.index 3 = some 2 →
        2 ^ 31 * 2 > 4 ∧
        ParseField (fullRead recHugeCount rfl) s .LittleEndian t =
          some ⟨some ⟨s, wrapInt64 (s + 12), recHugeCount, 256, 3, 2 ^ 31, 0, false⟩,
            none, none, none⟩) ∧
      (∀ (t : WidthTable) (s : Int), t.index 4 = some 4 →
        2 ^ 30 * 4 > 4 ∧
        ParseField (fullRead recHugeStrip rfl) s .LittleEndian t =
          some ⟨some ⟨s, wrapInt64 (s + 12), recHugeStrip, 273, 4, 2 ^ 30, 8, false⟩,
            none, some ⟨8⟩, none⟩) := by
  obtain ⟨hfe, hr⟩ := ParseField_success_field src start order tbl r f w h hok hf hw
  have hoff := branches_offset src.data start f.ID f.DType f.Count f.Value w
  rw [← hr] at hoff
  have hio : f.IsOffset = decide (totalSize f.Count w > 4) := by rw [hfe]
  have h1 : f.IsOffset = true ↔ (f.Count * w) % 2 ^ 32 > 4 := by
    rw [hio, decide_eq_true_iff]
    rfl
  refine ⟨h1, ?_, ?_, ?_⟩
  · rw [h1, hoff]
    by_cases hc : totalSize f.Count w > 4
    · rw [if_pos hc]
      exact ⟨fun _ => hc, fun _ => rfl⟩
    · rw [if_neg hc]
      exact ⟨fun hx => absurd hx (by simp), fun hx => absurd hx hc⟩
  · intro t s ht
    refine ⟨by decide, ?_⟩
    rw [ParseField_of_width (fullRead recHugeCount rfl) s .LittleEndian t 2 rfl rfl ht]
    rfl
  · intro t s ht
    refine ⟨by decide, ?_⟩
    rw [ParseField_of_width (fullRead recHugeStrip rfl) s .LittleEndian t 4 rfl rfl ht]
    rfl

/-- Witness of C16 on the record with `Count = 2^31` of the 2-byte type 3. -/
theorem ParseField_offset_test_wraps_witness :
    ParseField (fullRead recHugeCount rfl) 0 .LittleEndian tiffDataTypeSize
        = some resHugeCount ∧
      tiffDataTypeSize.index 3 = some 2 ∧
      ((false = true ↔ (2147483648 * 2) % 2 ^ 32 > 4) ∧
        (resHugeCount.offset.isSome = true ↔ false = true)) :=
  ⟨rfl, rfl,
    (ParseField_offset_test_wraps (fullRead recHugeCount rfl) 0 .LittleEndian
      tiffDataTypeSize resHugeCount ⟨0, 12, recHugeCount, 256, 3, 2147483648, 0, false⟩ 2
      rfl rfl rfl rfl).1,
    (ParseField_offset_test_wraps (fullRead recHugeCount rfl) 0 .LittleEndian
      tiffDataTypeSize resHugeCount ⟨0, 12, recHugeCount, 256, 3, 2147483648, 0, false⟩ 2
      rfl rfl rfl rfl).2.1⟩

/-! ## Re-encoding the decoded record -/

theorem PutUint16_unsignedValue (order : ByteOrder) (x y : Byte) :
    order.PutUint16 (unsignedValue order [x, y]) = [x, y] := by
  have hx := x.isLt
  have hy := y.isLt
  cases order <;>
    simp only [ByteOrder.PutUint16, unsignedValue, toByte, List.foldr, List.foldl,
      Nat.shiftRight_eq_div_pow, List.cons.injEq, and_true, Fin.ext_iff] <;>
    constructor <;> omega

theorem PutUint32_unsignedValue (order : ByteOrder) (x y z w : Byte) :
    order.PutUint32 (unsignedValue order [x, y, z, w]) = [x, y, z, w] := by
  have hx := x.isLt
  have hy := y.isLt
  have hz := z.isLt
  have hw := w.isLt
  cases order <;>
    simp only [ByteOrder.PutUint32, unsignedValue, toByte, List.foldr, List.foldl,
      Nat.shiftRight_eq_div_pow, List.cons.injEq, and_true, Fin.ext_iff] <;>
    refine ⟨?_, ?_, ?_, ?_⟩ <;> omega

theorem encodeRecord_decoded (order : ByteOrder) (data : List Byte)
    (h : data.length = 12) :
    encodeRecord order (unsignedValue order (slice data 0 2))
      (unsignedValue order (slice data 2 4)) (unsignedValue order (slice data 4 8))
      (unsignedValue order (slice data 8 12)) = data := by
  obtain ⟨b0, b1, b2, b3, b4, b5, b6, b7, b8, b9, b10, b11, hd⟩ := length_twelve data h
  have h1 : slice data 0 2 = [b0, b1] := by rw [hd]; rfl
  have h2 : slice data 2 4 = [b2, b3] := by rw [hd]; rfl
  have h3 : slice data 4 8 = [b4, b5, b6, b7] := by rw [hd]; rfl
  have h4 : slice data 8 12 = [b8, b9, b10, b11] := by rw [hd]; rfl
  rw [h1, h2, h3, h4, encodeRecord, PutUint16_unsignedValue, PutUint16_unsignedValue,
    PutUint32_unsignedValue, PutUint32_unsignedValue, hd]
  rfl

/-- C17: for calls that return without error, re-encoding the decoded ID, DType,
Count and Value, in that order and with the byte order of the call, gives back
the `Data` of the Field, which is the buffer read; so two reads decoded under one
byte order to the same ID, DType, Count and Value delivered the same twelve
bytes, whatever the starts and the width tables. -/
theorem ParseField_reencode (src1 src2 : Reader) (start1 start2 : Int)
    (order : ByteOrder) (tbl1 tbl2 : WidthTable) (r1 r2 : ParseResult)
    (h1 : ParseField src1 start1 order tbl1 = some r1) (hok1 : r1.err = none)
    (h2 : ParseField src2 start2 order tbl2 = some r2) (hok2 : r2.err = none) :
    ∃ f1 f2, r1.field = some f1 ∧ r2.field = some f2 ∧
      encodeRecord order f1.ID f1.DType f1.Count f1.Value = f1.Data ∧
      f1.Data = src1.data ∧
      (f1.ID = f2.ID → f1.DType = f2.DType → f1.Count = f2.Count →
        f1.Value = f2.Value → src1.data = src2.data) := by
  obtain ⟨_, _, w1, _, hr1⟩ := ParseField_success src1 start1 order tbl1 r1 h1 hok1
  obtain ⟨_, _, w2, _, hr2⟩ := ParseField_success src2 start2 order tbl2 r2 h2 hok2
  refine ⟨_, _, by rw [hr1, branches_field], by rw [hr2, branches_field],
    encodeRecord_decoded order src1.data src1.len_data, rfl, ?_⟩
  intro hid hdt hcn hvl
  have e1 := encodeRecord_decoded order src1.data src1.len_data
  have e2 := encodeRecord_decoded order src2.data src2.len_data
  simp only at hid hdt hcn hvl
  rw [← e1, ← e2, hid, hdt, hcn, hvl]

/-- Witness of C17: the big-endian record `ID=273, DType=4, Count=3, Value=200`
read at offset 100 with the width table as a map and at offset 0 with the table
as a slice. -/
theorem ParseField_reencode_witness :
    ParseField (fullRead recStripMany rfl) 100 .BigEndian tiffDataTypeSize
        = some resStripMany ∧
      ParseField (fullRead recStripMany rfl) 0 .BigEndian tiffDataTypeSizeSlice
        = some resStripManyAtZero ∧
      ∃ f1 f2, resStripMany.field = some f1 ∧ resStripManyAtZero.field = some f2 ∧
        encodeRecord .BigEndian f1.ID f1.DType f1.Count f1.Value = f1.Data ∧
        f1.Data = recStripMany ∧
        (f1.ID = f2.ID → f1.DType = f2.DType → f1.Count = f2.Count →
          f1.Value = f2.Value → recStripMany = recStripMany) :=
  ⟨rfl, rfl,
    ParseField_reencode (fullRead recStripMany rfl) (fullRead recStripMany rfl) 100 0
      .BigEndian tiffDataTypeSize tiffDataTypeSizeSlice resStripMany resStripManyAtZero
      rfl rfl rfl rfl⟩

/-! ## The positions handed back -/

/-- C18: for a call that returns without error, the `To` of a returned Offset and
the `Start` of a returned Data are the decoded Value as a non-negative integer,
between 0 and 4294967295, whatever the top bit of the Value. -/
theorem ParseField_positions_in_range (src : Reader) (start : Int) (order : ByteOrder)
    (tbl : WidthTable) (r : ParseResult)
    (h : ParseField src start order tbl = some r) (hok : r.err = none) :
    ∃ f, r.field = some f ∧
      (∀ o, r.offset = some o →
        o.To = (f.Value : Int) ∧ 0 ≤ o.To ∧ o.To ≤ 4294967295) ∧
      (∀ d, r.data = some d →
        d.Start = (f.Value : Int) ∧ 0 ≤ d.Start ∧ d.Start ≤ 4294967295) := by
  obtain ⟨_, _, w, _, hr⟩ := ParseField_success src start order tbl r h hok
  have hv := unsignedValue_four_lt order _ (slice_length src 8 12 (by omega))
  refine ⟨_, by rw [hr, branches_field], ?_, ?_⟩
  · intro o ho
    rw [hr, branches_offset] at ho
    split at ho
    · have ho' := (Option.some.inj ho).symm
      subst ho'
      refine ⟨rfl, ?_, ?_⟩
      · show (0 : Int) ≤ ((unsignedValue order (slice src.data 8 12) : Nat) : Int)
        omega
      · show ((unsignedValue order (slice src.data 8 12) : Nat) : Int) ≤ 4294967295
        omega
    · cases ho
  · intro d hd
    rw [hr, branches_data] at hd
    split at hd
    · cases hd
    · split at hd
      · have hd' := (Option.some.inj hd).symm
        subst hd'
        refine ⟨rfl, ?_, ?_⟩
        · show (0 : Int) ≤ ((unsignedValue order (slice src.data 8 12) : Nat) : Int)
          omega
        · show ((unsignedValue order (slice src.data 8 12) : Nat) : Int) ≤ 4294967295
          omega
      · cases hd

/-- Witness of C18 on a record whose Value `2^32 - 1` has the top bit set: the
Offset has `To = 4294967295`. -/
theorem ParseField_positions_in_range_witness :
    ParseField (fullRead recTopBit rfl) 100 .BigEndian tiffDataTypeSize = some resTopBit ∧
      resTopBit.offset = some ⟨4, 100, 4294967295, 3, 273, true⟩ ∧
      ∃ f, resTopBit.field = some f ∧
        (∀ o, resTopBit.offset = some o →
          o.To = (f.Value : Int) ∧ 0 ≤ o.To ∧ o.To ≤ 4294967295) ∧
        (∀ d, resTopBit.data = some d →
          d.Start = (f.Value : Int) ∧ 0 ≤ d.Start ∧ d.Start ≤ 4294967295) :=
  ⟨rfl, rfl, ParseField_positions_in_range (fullRead recTopBit rfl) 100 .BigEndian
    tiffDataTypeSize resTopBit rfl rfl⟩

/-! ## Region queries, continued -/

/-- C19: `ContainsRegion(s, e)` holds exactly when `Contains(s)` and `Contains(e)`
hold and `e` is not `Start`; it does not ask for `s <= e`: on every Field with
`Start = 10` and `End = 22` the reversed range `s = 15`, `e = 11` is accepted. -/
theorem ContainsRegion_iff_Contains (f : Field) (s e : Int) (d : List Byte)
    (id dtype count value : Nat) (isOffset : Bool) :
    (f.ContainsRegion s e = true ↔
        f.Contains s = true ∧ f.Contains e = true ∧ e ≠ f.Start) ∧
      ((11 : Int) < 15 ∧
        (Field.mk 10 22 d id dtype count value isOffset).ContainsRegion 15 11 = true) := by
  refine ⟨?_, by decide, ?_⟩
  · simp only [Field.ContainsRegion, Field.Contains, Bool.and_eq_true, decide_eq_true_eq]
    constructor
    · intro h
      refine ⟨⟨h.1.1.1, h.1.1.2⟩, ⟨by omega, h.2⟩, by omega⟩
    · intro h
      refine ⟨⟨⟨h.1.1, h.1.2⟩, by omega⟩, h.2.1.2⟩
  · simp [Field.ContainsRegion]

end Tiff
